import Mathlib

/-
  Verification development for the genHypo literature-mining pipeline.

  The embedding models Python strings as lists of characters (`PyStr`), so
  that `len`, slicing, `strip`, `split` and friends are ordinary list
  functions.  External collaborators (the NLTK sentence tokenizer, the
  OpenAI generation service, the HTTP layer, the filesystem, hashlib) are
  modelled as explicit parameters/oracles; everything else is translated
  line by line from the repository sources:
    - src/graph_constructor.py : split_text, extract_causal_kg
    - src/api.py               : generate_text, conversation_history
    - src/utils/download.py    : _clean_name, make_safe_filename_from_url,
                                 download_pdf, save_pdfs_from_url_list
-/

set_option maxRecDepth 100000

namespace GenHypo

/-- Python strings, modelled as lists of characters ("len" is list length). -/
abbrev PyStr := List Char

/-- Embed a Lean string literal as a `PyStr`. -/
def pystr (s : String) : PyStr := s.data

/-- Python `str.strip()`: drop whitespace from both ends.
(Python strips a slightly larger Unicode whitespace class than
`Char.isWhitespace`; the difference is irrelevant to the claims.) -/
def strip (s : PyStr) : PyStr :=
  ((s.dropWhile Char.isWhitespace).reverse.dropWhile Char.isWhitespace).reverse

/-- Python `str.split(sep)` for a one-character separator: non-collapsing,
so the empty string splits to `[""]` and `"a,,b"` to `["a","","b"]`. -/
def pySplit (sep : Char) : PyStr → List PyStr
  | [] => [[]]
  | c :: rest =>
    match pySplit sep rest with
    | [] => [[]]
    | g :: gs => if c = sep then [] :: g :: gs else (c :: g) :: gs

/-- Python `str.lower()` (ASCII case folding, enough for the claims). -/
def pyLower (s : PyStr) : PyStr := s.map Char.toLower

/-- Python `sub in s` substring test. -/
def pyIn (sub s : PyStr) : Bool := s.tails.any (fun t => sub.isPrefixOf t)

/- ------------------------------------------------------------------
   src/graph_constructor.py, split_text (lines 8-21).

   def split_text(text, chunk_size):
       chunks=[]
       current_chunk=""
       sentences = nltk.sent_tokenize(text)
       for sentence in sentences:
           if len(current_chunk) + len(sentence) <= chunk_size:
               current_chunk += " " + sentence
           elif current_chunk!="":
               chunks.append(current_chunk.strip())
               current_chunk = sentence
       if current_chunk:
           chunks.append(current_chunk.strip())
       return chunks

   nltk.sent_tokenize is an external tokenizer; the embedding takes its
   output (the sentence list) as the input.
   ------------------------------------------------------------------ -/

/-- The loop of `split_text`, recursing over the tokenized sentences with
the accumulated `chunks` list and the running `current_chunk` buffer. -/
def split_text_go (chunk_size : Nat) :
    List PyStr → List PyStr → PyStr → List PyStr
  | [], chunks, current_chunk =>
    if current_chunk ≠ [] then chunks ++ [strip current_chunk] else chunks
  | sentence :: rest, chunks, current_chunk =>
    if current_chunk.length + sentence.length ≤ chunk_size then
      split_text_go chunk_size rest chunks (current_chunk ++ (' ' :: sentence))
    else if current_chunk ≠ [] then
      split_text_go chunk_size rest (chunks ++ [strip current_chunk]) sentence
    else
      split_text_go chunk_size rest chunks current_chunk

/-- Embedding of `split_text` from src/graph_constructor.py, over the tokenizer output. -/
def split_text (sentences : List PyStr) (chunk_size : Nat) : List PyStr :=
  split_text_go chunk_size sentences [] []

/- ------------------------------------------------------------------
   src/api.py.

   conversation_history=[]
   def generate_text(prompt):
       conversation_history.append({"role":"user","content":prompt})
       response=client.chat.completions.create(model="gpt-4",
                                               messages=conversation_history, ...)
       return response.choices[0].message.content

   The OpenAI service is modelled as an oracle `respond` from the message
   list sent to it to the returned completion text.  Note the source
   appends only the user turn, never the assistant reply.  The embedding
   additionally records every prompt passed to `generate_text` in a
   `calls` trace, so that "issues one generation call" is observable.
   ------------------------------------------------------------------ -/

/-- One message of the conversation history. -/
structure Turn where
  role : String
  content : PyStr
deriving DecidableEq

/-- The generation service, as a pure oracle from the message list to the
completion text. -/
abbrev Respond := List Turn → PyStr

/-- Mutable state touched by `generate_text`: the shared
`conversation_history`, plus a ghost trace of the prompts of all
generation calls issued so far. -/
structure GenState where
  history : List Turn
  calls : List PyStr
deriving DecidableEq

/-- Embedding of `generate_text` from src/api.py: append the user turn, send the whole
history to the service, return its completion. -/
def generate_text (respond : Respond) (prompt : PyStr) (st : GenState) :
    PyStr × GenState :=
  let history := st.history ++ [⟨"user", prompt⟩]
  (respond history, ⟨history, st.calls ++ [prompt]⟩)

/- ------------------------------------------------------------------
   src/graph_constructor.py, extract_causal_kg (lines 23-59).
   The two prompt templates are the f-strings of the source.
   ------------------------------------------------------------------ -/

/-- The type-discovery prompt (`type_prompt` f-string, lines 29-33). -/
def type_prompt (chunk : PyStr) : PyStr :=
  pystr "\n        识别⽂本中存在的因果关系类型:\n        " ++ chunk ++
  pystr "\n        输出因果类型列表(如:基因调控,信号通路,环境因素)，如果没有这种因果类型，返回空，不然用逗号隔开返回给我，不需要额外进行解释。\n        "

/-- The instance-extraction prompt (`instance_prompt` f-string, lines
40-56); the doubled braces of the f-string are literal braces here. -/
def instance_prompt (ctype chunk : PyStr) : PyStr :=
  pystr "\n            抽取" ++ ctype ++
  pystr "的因果实例:\n            ⽂本: " ++ chunk ++
  pystr "\n            输出格式(JSON):\n            \x7b\n            \"subject\": \"原因实体\",\n            \"subject_state\": \"baseline/upregulated/downregulated/activated/inhibited\",\n            \"predicate\": \"具体因果关系(如upregulates, activates, inhibits)\",\n            \"object\": \"结果实体\",\n            \"object_state_change\": \"状态变化⽅向\",\n            \"temporal_info\": \"时间信息(if any)\",\n            \"mechanism\": \"机制描述(50-100词)\",\n            \"evidence_strength\": \"strong/moderate/weak\",\n            \"source_sentence\": \"原始句⼦\"\n            \x7d\n            "

/-- The type-discovery step for one chunk (lines 28-37):
`c_types=set(generate_text(type_prompt).split(","))`, then each element is
stripped into `causal_types`, then `conversation_history.pop()`.
Python's set iteration order is unspecified; the model fixes the order in
which `List.dedup` keeps the stripped labels.  `pop()` on the nonempty
history is `List.dropLast`. -/
def discover_types (respond : Respond) (chunk : PyStr) (st : GenState) :
    List PyStr × GenState :=
  let (resp, st1) := generate_text respond (type_prompt chunk) st
  (((pySplit ',' resp).map strip).dedup, ⟨st1.history.dropLast, st1.calls⟩)

/-- One instance-extraction call for a (chunk, type) pair (lines 39-58):
`instances = generate_text(instance_prompt)` followed by
`conversation_history.pop()`. -/
def extract_instances (respond : Respond) (chunk ctype : PyStr)
    (st : GenState) : PyStr × GenState :=
  let (resp, st1) := generate_text respond (instance_prompt ctype chunk) st
  (resp, ⟨st1.history.dropLast, st1.calls⟩)

/-- The body of `for chunk in chunks[:1]` in `extract_causal_kg`: one
discovery call, then one extraction call per discovered causal type,
appending each raw output to `kg_triples`. -/
def process_chunk (respond : Respond) (acc : List PyStr × GenState)
    (chunk : PyStr) : List PyStr × GenState :=
  let (causal_types, st1) := discover_types respond chunk acc.2
  causal_types.foldl
    (fun a ctype =>
      let (instances, st2) := extract_instances respond chunk ctype a.2
      (a.1 ++ [instances], st2))
    (acc.1, st1)

/-- Embedding of `extract_causal_kg` from src/graph_constructor.py.  Note the source
iterates `for chunk in chunks[:1]`, i.e. over at most the first chunk.
Returns the accumulated `kg_triples` and the final mutable state. -/
def extract_causal_kg (respond : Respond) (sentences : List PyStr)
    (chunk_size : Nat) (st : GenState) : List PyStr × GenState :=
  let chunks := split_text sentences chunk_size
  (chunks.take 1).foldl (process_chunk respond) ([], st)

/- ------------------------------------------------------------------
   src/utils/download.py.

   The HTTP layer (requests) and the filesystem are modelled as oracles:
   `Web` maps a URL to the response of a HEAD/GET request (`none` models a
   raised exception), and the filesystem is a partial map from paths to
   file contents.  `urllib.parse` helpers and `hashlib.sha1` are external
   library calls, modelled below (`urlparse` simplified to the separator
   structure the downloader relies on; `sha1hex` an oracle parameter).
   ------------------------------------------------------------------ -/

/-- Split at the first occurrence of a separator: returns the part before
it and, when the separator occurs, the part after it. -/
def splitFirst (sep : Char) : PyStr → PyStr × Option PyStr
  | [] => ([], none)
  | c :: rest =>
    if c = sep then ([], some rest)
    else
      let (b, a) := splitFirst sep rest
      (c :: b, a)

/-- Percent-decoding as in `urllib.parse.unquote`, restricted to
single-byte escapes (multi-byte UTF-8 escapes are irrelevant here). -/
def hexDigit (c : Char) : Option Nat :=
  if '0' ≤ c ∧ c ≤ '9' then some (c.toNat - 48)
  else if 'a' ≤ c ∧ c ≤ 'f' then some (c.toNat - 87)
  else if 'A' ≤ c ∧ c ≤ 'F' then some (c.toNat - 55)
  else none

def pyUnquote : PyStr → PyStr
  | [] => []
  | '%' :: a :: b :: rest =>
    match hexDigit a, hexDigit b with
    | some x, some y => Char.ofNat (16 * x + y) :: pyUnquote rest
    | _, _ => '%' :: pyUnquote (a :: b :: rest)
  | c :: rest => c :: pyUnquote rest

/-- Result record of `urllib.parse.urlparse` (fields the code reads). -/
structure UrlParts where
  scheme : PyStr
  netloc : PyStr
  path : PyStr
  query : PyStr
  fragment : PyStr

/-- Whether a string is a valid URL scheme (letter, then
letters/digits/`+`/`-`/`.`), as `urllib.parse.urlsplit` requires. -/
def validScheme : PyStr → Bool
  | [] => false
  | c :: rest =>
    c.isAlpha && rest.all (fun d => d.isAlphanum || d = '+' || d = '-' || d = '.')

/-- Model of `urllib.parse.urlparse`, modelled on its separator structure:
`scheme:`, then `#fragment`, then `?query`, then `//netloc` up to the
next `/`, the rest being the path. -/
def urlparse (url : PyStr) : UrlParts :=
  let (scheme, rest0) :=
    match splitFirst ':' url with
    | (s, some r) => if validScheme s then (pyLower s, r) else ([], url)
    | (_, none) => ([], url)
  let (rest1, fragment) :=
    match splitFirst '#' rest0 with
    | (b, some a) => (b, a)
    | (b, none) => (b, [])
  let (rest2, query) :=
    match splitFirst '?' rest1 with
    | (b, some a) => (b, a)
    | (b, none) => (b, [])
  let (netloc, path) :=
    if (pystr "//").isPrefixOf rest2 then
      let r := rest2.drop 2
      (r.takeWhile (fun c => c ≠ '/'), r.dropWhile (fun c => c ≠ '/'))
    else ([], rest2)
  ⟨scheme, netloc, path, query, fragment⟩

/-- Model of `urllib.parse.parse_qsl` with default arguments: split the query on
`&`, keep only `name=value` pairs with a nonempty value, replace `+` by
space and percent-decode both sides. -/
def parse_qsl (qs : PyStr) : List (PyStr × PyStr) :=
  (pySplit '&' qs).filterMap fun pair =>
    if pair = [] then none
    else
      match splitFirst '=' pair with
      | (_, none) => none
      | (n, some v) =>
        if v = [] then none
        else
          let plus := fun s : PyStr => s.map (fun c => if c = '+' then ' ' else c)
          some (pyUnquote (plus n), pyUnquote (plus v))

/-- Model of `parse_qs(...).get(key)` followed by `[0]`: the first value recorded
for the key, if any. -/
def qsGet (l : List (PyStr × PyStr)) (key : String) : Option PyStr :=
  ((l.filter (fun p => p.1 == pystr key)).head?).map Prod.snd

/-- Model of `os.path.basename`: everything after the last `/`. -/
def basename (p : PyStr) : PyStr :=
  (p.reverse.takeWhile (fun c => c ≠ '/')).reverse

/-- Test `url.lower().endswith(".pdf")`. -/
def endsPdfCI (s : PyStr) : Bool := (pystr ".pdf").isSuffixOf (pyLower s)

/-- The character class kept by `_clean_name`:
`c.isalnum() or c in " .-_()[]"`. -/
def allowedChar (c : Char) : Bool := c.isAlphanum || (pystr " .-_()[]").contains c

/-- Embedding of `_clean_name` (download.py lines 37-43): keep the safe characters,
strip, truncate to `maxlen`, and return `None` for an empty result. -/
def clean_name (s : PyStr) (maxlen : Nat) : Option PyStr :=
  let safe := strip (s.filter allowedChar)
  let safe := if maxlen < safe.length then safe.take maxlen else safe
  if safe = [] then none else some safe

/-- The character class kept by `re.sub(r"[^\w\-\.\(\)\[\] ]+", "", name)`:
word characters plus `- . ( ) [ ]` and space. -/
def wordOrSafe (c : Char) : Bool :=
  c.isAlphanum || c = '_' || (pystr "-.()[] ").contains c

/-- The `for cand in candidates` loop of `make_safe_filename_from_url`
(lines 67-76): the first candidate that survives cleaning becomes the
name, with `.pdf` appended unless already present (case-insensitively). -/
def candidate_name (maxlen : Nat) : List PyStr → Option PyStr
  | [] => none
  | cand :: rest =>
    if cand = [] then candidate_name maxlen rest
    else
      let name := (pyUnquote cand).filter wordOrSafe
      match clean_name name (maxlen - 4) with
      | some c => some (if endsPdfCI c then c else c ++ pystr ".pdf")
      | none => candidate_name maxlen rest

/-- The prioritized candidate values taken from the query string:
`accid`, `id`, `pmcid`, `file`, `filename` (lines 60-65). -/
def url_candidates (u : PyStr) : List PyStr :=
  let qs := parse_qsl (urlparse u).query
  [qsGet qs "accid", qsGet qs "id", qsGet qs "pmcid",
   qsGet qs "file", qsGet qs "filename"].filterMap id

/-- The `try basename of path` branch (lines 78-86): drop `?`/`#`
suffixes from the basename, clean it, and ensure a `.pdf` suffix (the
`endswith` test on the uncleaned basename decides which return is
taken). -/
def basename_name (maxlen : Nat) (path0 : PyStr) : Option PyStr :=
  let base := basename path0
  if base ≠ [] then
    let base2 := (splitFirst '#' (splitFirst '?' base).1).1
    match clean_name base2 maxlen with
    | some bc =>
      if endsPdfCI base2 then
        some (if endsPdfCI bc then bc else bc ++ pystr ".pdf")
      else some (bc ++ pystr ".pdf")
    | none => none
  else none

/-- The `fallback: hash of url` branch (lines 88-91):
`f"file_{sha1(url)[:12]}.pdf"`, cleaned. -/
def hash_name (sha1hex : PyStr → PyStr) (u : PyStr) (maxlen : Nat) :
    Option PyStr :=
  clean_name (pystr "file_" ++ (sha1hex u).take 12 ++ pystr ".pdf") maxlen

/-- Embedding of `make_safe_filename_from_url` (download.py lines 45-95), with
`hashlib.sha1(url.encode()).hexdigest()` as the oracle `sha1hex`. -/
def make_safe_filename_from_url (sha1hex : PyStr → PyStr)
    (url : Option PyStr) (maxlen : Nat := 200) : Option PyStr :=
  match url with
  | none => none
  | some u =>
    if u = [] then none
    else
      match candidate_name maxlen (url_candidates u) with
      | some c => some c
      | none =>
        match basename_name maxlen (pyUnquote (urlparse u).path) with
        | some r => some r
        | none => hash_name sha1hex u maxlen

/- ------------------------------------------------------------------
   download_pdf and save_pdfs_from_url_list (download.py lines 98-188).
   ------------------------------------------------------------------ -/

/-- An HTTP response: status code, `Content-Type` header (empty when the
header is missing), and the body. -/
structure HttpResponse where
  status : Nat
  contentType : PyStr
  body : PyStr

/-- The network, as oracles for HEAD and GET; `none` models a raised
`requests` exception (connection error, timeout, ...). -/
structure Web where
  head : PyStr → Option HttpResponse
  get : PyStr → Option HttpResponse

/-- The filesystem inside the output directory: path to contents. -/
abbrev FS := PyStr → Option PyStr

/-- Write a file (streaming the body to `save_path`). -/
def fsWrite (fs : FS) (p body : PyStr) : FS :=
  fun n => if n = p then some body else fs n

/-- Model of `os.remove` guarded by `os.path.exists`. -/
def fsRemove (fs : FS) (p : PyStr) : FS :=
  fun n => if n = p then none else fs n

def appPdf : PyStr := pystr "application/pdf"

/-- Embedding of `download_pdf` (lines 98-139), control flow: HEAD for the content
type (exceptions give the empty type), then a `.pdf`-suffixed URL or a
PDF content type leads to a GET that is saved when the status is 200 and
the GET content type is PDF or the URL ends in `.pdf`; otherwise a plain
GET is saved only for a PDF content type.  This core returns the body
written to `save_path` (`none` when nothing is written and the Python
function returns `False`). -/
def download_pdf_core (web : Web) (url : PyStr) : Option PyStr :=
  if url = [] ∨ strip url = [] then none
  else
    let ctype :=
      match web.head url with
      | some r => pyLower r.contentType
      | none => []
    if endsPdfCI url || pyIn appPdf ctype then
      match web.get url with
      | none => none
      | some r =>
        if r.status = 200 ∧ (pyIn appPdf (pyLower r.contentType) || endsPdfCI url) = true then
          some r.body
        else none
    else
      match web.get url with
      | none => none
      | some r =>
        if r.status = 200 ∧ pyIn appPdf (pyLower r.contentType) = true then
          some r.body
        else none

/-- Embedding of `download_pdf` as called by the saver: the Python return value
together with the filesystem after the call (the success paths write the
streamed body to `save_path` before returning `True`). -/
def download_pdf (web : Web) (url save_path : PyStr) (fs : FS) :
    Bool × FS :=
  match download_pdf_core web url with
  | some body => (true, fsWrite fs save_path body)
  | none => (false, fs)

/-- One per-URL result of `save_pdfs_from_url_list`. -/
structure UrlResult where
  name : Option PyStr
  url : Option PyStr
  status : String
  path_or_msg : PyStr
deriving DecidableEq

/-- The safe filename a URL gets in `save_pdfs_from_url_list`:
`make_safe_filename_from_url` with the `file_<sha1[:12]>.pdf` fallback. -/
def safe_name_of (sha1hex : PyStr → PyStr) (u : PyStr) : PyStr :=
  match make_safe_filename_from_url sha1hex (some u) with
  | some n => n
  | none => pystr "file_" ++ (sha1hex u).take 12 ++ pystr ".pdf"

/-- Model of `os.path.join(outdir, safe_name)`. -/
def save_path_of (sha1hex : PyStr → PyStr) (outdir u : PyStr) : PyStr :=
  outdir ++ ('/' :: safe_name_of sha1hex u)

/-- The body of the `for url in urls` loop of `save_pdfs_from_url_list`
(lines 171-188).  The ghost `attempts` trace records each URL passed on
to `download_pdf`. -/
def process_url (web : Web) (sha1hex : PyStr → PyStr) (outdir : PyStr)
    (overwrite : Bool) (url? : Option PyStr) (fs : FS)
    (attempts : List PyStr) : UrlResult × FS × List PyStr :=
  match url? with
  | none => (⟨none, none, "SKIP", pystr "empty URL or None"⟩, fs, attempts)
  | some u =>
    if u = [] then
      (⟨none, some u, "SKIP", pystr "empty URL or None"⟩, fs, attempts)
    else
      let safe_name := safe_name_of sha1hex u
      let save_path := save_path_of sha1hex outdir u
      match fs save_path with
      | some _ =>
        if overwrite then
          let (ok, fs1) := download_pdf web u save_path fs
          if ok then
            (⟨some safe_name, some u, "OK", save_path⟩, fs1, attempts ++ [u])
          else
            (⟨some safe_name, some u, "FAIL",
              pystr "could not download PDF or not a PDF"⟩,
             fsRemove fs1 save_path, attempts ++ [u])
        else
          (⟨some safe_name, some u, "EXISTS", save_path⟩, fs, attempts)
      | none =>
        let (ok, fs1) := download_pdf web u save_path fs
        if ok then
          (⟨some safe_name, some u, "OK", save_path⟩, fs1, attempts ++ [u])
        else
          (⟨some safe_name, some u, "FAIL",
            pystr "could not download PDF or not a PDF"⟩,
           fsRemove fs1 save_path, attempts ++ [u])

/-- Embedding of `save_pdfs_from_url_list` (lines 155-188), threading the filesystem
and the ghost download trace through the URL list. -/
def save_pdfs_from_url_list (web : Web) (sha1hex : PyStr → PyStr)
    (urls : List (Option PyStr)) (outdir : PyStr) (overwrite : Bool)
    (fs : FS) : List UrlResult × FS × List PyStr :=
  match urls with
  | [] => ([], fs, [])
  | url? :: rest =>
    let (r, fs1, att1) := process_url web sha1hex outdir overwrite url? fs []
    let (rs, fs2, att2) :=
      save_pdfs_from_url_list web sha1hex rest outdir overwrite fs1
    (r :: rs, fs2, att1 ++ att2)

/- ------------------------------------------------------------------
   Helper lemmas.
   ------------------------------------------------------------------ -/

/-- Stripping a string never lengthens it. -/
lemma strip_sublist (s : PyStr) : List.Sublist (strip s) s := by
  unfold strip
  have h1 : List.Sublist
      ((s.dropWhile Char.isWhitespace).reverse.dropWhile Char.isWhitespace)
      (s.dropWhile Char.isWhitespace).reverse :=
    (List.dropWhile_suffix _).sublist
  have h2 : List.Sublist
      (((s.dropWhile Char.isWhitespace).reverse.dropWhile Char.isWhitespace).reverse)
      (s.dropWhile Char.isWhitespace) := by
    have := List.reverse_sublist.mpr h1
    simpa using this
  exact h2.trans (List.dropWhile_suffix _).sublist

lemma strip_length_le (s : PyStr) : (strip s).length ≤ s.length :=
  (strip_sublist s).length_le

/-- The extraction inner loop of `process_chunk` leaves the conversation
history where it started. -/
lemma extract_loop_history (respond : Respond) (chunk : PyStr) :
    ∀ (l : List PyStr) (kg : List PyStr) (st : GenState),
      (l.foldl
        (fun a ctype =>
          let (instances, st2) := extract_instances respond chunk ctype a.2
          (a.1 ++ [instances], st2)) (kg, st)).2.history = st.history := by
  intro l
  induction l with
  | nil => intro kg st; rfl
  | cons c rest ih =>
    intro kg st
    have h := ih
      (kg ++ [respond (st.history ++ [Turn.mk "user" (instance_prompt c chunk)])])
      (GenState.mk (st.history ++ [Turn.mk "user" (instance_prompt c chunk)]).dropLast
        (st.calls ++ [instance_prompt c chunk]))
    simpa [List.foldl_cons, extract_instances, generate_text, List.dropLast_concat] using h

/-- Lemma: `process_chunk` leaves the conversation history where it started. -/
lemma process_chunk_history (respond : Respond) (kg : List PyStr)
    (st : GenState) (chunk : PyStr) :
    (process_chunk respond (kg, st) chunk).2.history = st.history := by
  unfold process_chunk discover_types generate_text
  have h := extract_loop_history respond chunk
    (((pySplit ',' (respond (st.history ++ [Turn.mk "user" (type_prompt chunk)]))).map strip).dedup)
    kg
    (GenState.mk (st.history ++ [Turn.mk "user" (type_prompt chunk)]).dropLast
      (st.calls ++ [type_prompt chunk]))
  simpa [List.dropLast_concat] using h

/- ------------------------------------------------------------------
   C6: the conversation log is balanced around every call.
   ------------------------------------------------------------------ -/

/-- C6 (confirmed).  The shared conversation-history log has the same
length — indeed, is structurally the same list — after each
type-discovery call and after each instance-extraction call as before
that call, since the user turn appended by `generate_text` is removed by
the following `conversation_history.pop()`; consequently the state after
the whole pipeline is structurally equal to the state before it
started. -/
theorem conversation_history_balanced :
    ∀ (respond : Respond) (chunk ctype : PyStr) (st : GenState)
      (sentences : List PyStr) (chunk_size : Nat),
      (discover_types respond chunk st).2.history = st.history ∧
      (extract_instances respond chunk ctype st).2.history = st.history ∧
      (extract_causal_kg respond sentences chunk_size st).2.history = st.history := by
  intro respond chunk ctype st sentences chunk_size
  refine ⟨?_, ?_, ?_⟩
  · simp [discover_types, generate_text, List.dropLast_concat]
  · simp [extract_instances, generate_text, List.dropLast_concat]
  · unfold extract_causal_kg
    cases h : split_text sentences chunk_size with
    | nil => rfl
    | cons c rest =>
      simpa [List.take, List.foldl_cons] using process_chunk_history respond [] st c

/- ------------------------------------------------------------------
   C1: the pipeline only processes chunks[:1].
   ------------------------------------------------------------------ -/

/-- C1 (code bug).  A document whose sentences "aa." and "bb." segment
(at bound 3) into the two chunks "aa." and "bb.": the pipeline issues its
discovery call and the per-label extraction call only for the first
chunk — the trace of generation calls contains no type-discovery prompt
for chunk "bb.", because `extract_causal_kg` iterates over `chunks[:1]`. -/
theorem extract_causal_kg_ignores_second_chunk :
    split_text [pystr "aa.", pystr "bb."] 3 = [pystr "aa.", pystr "bb."] ∧
    (extract_causal_kg (fun _ => pystr "t") [pystr "aa.", pystr "bb."] 3
        ⟨[], []⟩).2.calls
      = [type_prompt (pystr "aa."),
         instance_prompt (pystr "t") (pystr "aa.")] ∧
    type_prompt (pystr "bb.")
      ∉ (extract_causal_kg (fun _ => pystr "t") [pystr "aa.", pystr "bb."] 3
          ⟨[], []⟩).2.calls := by
  refine ⟨by decide, by decide, by decide⟩

/- ------------------------------------------------------------------
   C2 and C3: split_text drops a leading oversized sentence.
   ------------------------------------------------------------------ -/

/-- C2 (code bug).  For the document whose sentences are "xxxxx" and
"ab." with bound 3, the segmenter returns only the chunk "ab.": the
sentence "xxxxx" appears in no chunk at all, so no concatenation of the
chunks can reproduce every sentence.  The `elif current_chunk!=""`
branch silently discards a sentence that does not fit while the buffer
is still empty. -/
theorem split_text_drops_sentence :
    split_text [pystr "xxxxx", pystr "ab."] 3 = [pystr "ab."] := by decide

/-- C3 (code bug).  A sentence of length 5 with bound 4 is emitted as its
own chunk when it is the second sentence, but is dropped entirely — not
emitted as an oversized chunk — when it is the first sentence. -/
theorem split_text_oversized_first_sentence_dropped :
    split_text [pystr "aaaaa", pystr "bb."] 4 = [pystr "bb."] ∧
    split_text [pystr "bb.", pystr "aaaaa"] 4 = [pystr "bb.", pystr "aaaaa"] := by
  exact ⟨by decide, by decide⟩

/- ------------------------------------------------------------------
   C4: discovery on an empty response.
   ------------------------------------------------------------------ -/

/-- C4 (code bug).  When the generation service answers the
type-discovery prompt with the empty string, `set("".split(","))` is the
singleton containing the empty string, so the discovery step yields the
label set containing the empty-string label and the pipeline issues one
instance-extraction call for that empty label: on a one-chunk document
the call trace has the discovery prompt followed by an extraction prompt
for the empty causal type, and the result list gets that call's output. -/
theorem discover_types_empty_response_yields_empty_label :
    (discover_types (fun _ => []) (pystr "aa.") ⟨[], []⟩).1 = [[]] ∧
    (extract_causal_kg (fun _ => []) [pystr "aa."] 10 ⟨[], []⟩).2.calls
      = [type_prompt (pystr "aa."), instance_prompt [] (pystr "aa.")] ∧
    (extract_causal_kg (fun _ => []) [pystr "aa."] 10 ⟨[], []⟩).1 = [[]] := by
  refine ⟨by decide, by decide, by decide⟩

/- ------------------------------------------------------------------
   C7: length bound of multi-sentence chunks.
   ------------------------------------------------------------------ -/

/-- C7 counterexample.  With sentences "aaaa.", "bb.", "cc." and bound 6,
the second chunk "bb. cc." is the join of the two sentences "bb." and
"cc." (so it is not the single-oversized-sentence case), yet its length
is 7 > 6: the guard `len(current_chunk) + len(sentence) <= chunk_size`
does not count the joining space that `current_chunk += " " + sentence`
inserts, and a chunk whose buffer was restarted by the `elif` branch has
no leading space for `strip` to remove. -/
theorem split_text_chunk_exceeds_bound :
    split_text [pystr "aaaa.", pystr "bb.", pystr "cc."] 6
      = [pystr "aaaa.", pystr "bb. cc."] ∧
    pystr "bb. cc." = pystr "bb." ++ (' ' :: pystr "cc.") ∧
    (pystr "bb. cc.").length = 7 ∧
    ¬ (pystr "bb. cc.").length ≤ 6 := by
  refine ⟨by decide, by decide, by decide, by decide⟩

/-- Invariant of the `split_text` loop: provided every sentence is
whitespace-clean, every emitted chunk is either one of the sentences
verbatim or has length at most `chunk_size + 1`. -/
lemma split_text_go_bound (B : Nat) (S : List PyStr)
    (hS : ∀ s ∈ S, strip s = s) :
    ∀ (sents : List PyStr), (∀ s ∈ sents, s ∈ S) →
    ∀ (chunks : List PyStr) (cur : PyStr),
      (∀ c ∈ chunks, c ∈ S ∨ c.length ≤ B + 1) →
      (cur = [] ∨ cur.length ≤ B + 1 ∨ cur ∈ S) →
      ∀ c ∈ split_text_go B sents chunks cur, c ∈ S ∨ c.length ≤ B + 1 := by
  intro sents
  induction sents with
  | nil =>
    intro _ chunks cur hchunks hcur c hc
    simp only [split_text_go] at hc
    by_cases hne : cur = []
    · rw [if_neg (by simp [hne])] at hc
      exact hchunks c hc
    · rw [if_pos (by simpa using hne)] at hc
      rcases List.mem_append.mp hc with h | h
      · exact hchunks c h
      · have hcs : c = strip cur := by simpa using h
        rcases hcur with h0 | hlen | hmem
        · exact absurd h0 hne
        · exact Or.inr (hcs ▸ le_trans (strip_length_le cur) hlen)
        · exact Or.inl (by rw [hcs, hS cur hmem]; exact hmem)
  | cons s rest ih =>
    intro hsub chunks cur hchunks hcur c hc
    have hsS : s ∈ S := hsub s (by simp)
    have hrest : ∀ t ∈ rest, t ∈ S := fun t ht => hsub t (by simp [ht])
    simp only [split_text_go] at hc
    by_cases hfit : cur.length + s.length ≤ B
    · rw [if_pos hfit] at hc
      refine ih hrest chunks (cur ++ (' ' :: s)) hchunks ?_ c hc
      refine Or.inr (Or.inl ?_)
      simp only [List.length_append, List.length_cons]
      omega
    · rw [if_neg hfit] at hc
      by_cases hne : cur = []
      · rw [if_neg (by simp [hne])] at hc
        exact ih hrest chunks cur hchunks hcur c hc
      · rw [if_pos (by simpa using hne)] at hc
        refine ih hrest (chunks ++ [strip cur]) s ?_ (Or.inr (Or.inr hsS)) c hc
        intro d hd
        rcases List.mem_append.mp hd with h | h
        · exact hchunks d h
        · have hds : d = strip cur := by simpa using h
          rcases hcur with h0 | hlen | hmem
          · exact absurd h0 hne
          · exact Or.inr (hds ▸ le_trans (strip_length_le cur) hlen)
          · exact Or.inl (by rw [hds, hS cur hmem]; exact hmem)

/-- C7 amended (proved).  For every document and bound, provided the
tokenizer's sentences carry no leading or trailing whitespace, every
chunk the segmenter produces is either a single sentence verbatim (the
oversized-sentence case) or has character length at most
`max_chunk_chars + 1`: the bound can be exceeded by exactly the one
joining space the guard fails to count, as the counterexample forces. -/
theorem split_text_chunk_length_bound (sentences : List PyStr)
    (chunk_size : Nat) (hclean : ∀ s ∈ sentences, strip s = s) :
    ∀ c ∈ split_text sentences chunk_size,
      c ∈ sentences ∨ c.length ≤ chunk_size + 1 :=
  split_text_go_bound chunk_size sentences hclean sentences
    (fun _ h => h) [] [] (by simp) (Or.inl rfl)

/-- Witness for the amended C7 at a concrete input: the hypothesis holds
for the sentences "aaaa.", "bb.", "cc." and the conclusion bounds every
chunk produced at bound 6 by 7 unless it is one of the sentences. -/
theorem split_text_chunk_length_bound_witness :
    (∀ s ∈ [pystr "aaaa.", pystr "bb.", pystr "cc."], strip s = s) ∧
    (∀ c ∈ split_text [pystr "aaaa.", pystr "bb.", pystr "cc."] 6,
      c ∈ [pystr "aaaa.", pystr "bb.", pystr "cc."] ∨ c.length ≤ 7) :=
  ⟨by decide,
   split_text_chunk_length_bound [pystr "aaaa.", pystr "bb.", pystr "cc."] 6
     (by decide)⟩

/- ------------------------------------------------------------------
   C5: text/html responses and the ".pdf"-suffix bypass.
   ------------------------------------------------------------------ -/

/-- A network whose every GET answers 200 with `Content-Type: text/html`
and an HTML body, and whose HEAD requests raise. -/
def htmlWeb : Web :=
  ⟨fun _ => none,
   fun _ => some ⟨200, pystr "text/html", pystr "<html>junk</html>"⟩⟩

/-- C5 counterexample.  For the URL "http://x/a.pdf" — whose path ends in
".pdf" — against a server answering 200 with `Content-Type: text/html`,
`save_pdfs_from_url_list` reports status "OK" (not "FAIL") and leaves the
HTML body on disk as "a.pdf": `download_pdf` trusts the ".pdf" URL suffix
over the response content type in both of its checks. -/
theorem save_pdfs_html_on_pdf_url_reports_ok :
    (save_pdfs_from_url_list htmlWeb (fun _ => []) [some (pystr "http://x/a.pdf")]
        (pystr "downloaded_pdfs") false (fun _ => none)).1
      = [⟨some (pystr "a.pdf"), some (pystr "http://x/a.pdf"), "OK",
          pystr "downloaded_pdfs/a.pdf"⟩] ∧
    (save_pdfs_from_url_list htmlWeb (fun _ => []) [some (pystr "http://x/a.pdf")]
        (pystr "downloaded_pdfs") false (fun _ => none)).2.1
        (pystr "downloaded_pdfs/a.pdf")
      = some (pystr "<html>junk</html>") := by
  refine ⟨by decide, by decide⟩

/-- When the URL does not end in ".pdf" and the GET response is
`text/html`, `download_pdf` writes nothing and returns `False`. -/
lemma download_pdf_core_html_none (web : Web) (url : PyStr)
    (r : HttpResponse) (hnotpdf : endsPdfCI url = false)
    (hget : web.get url = some r)
    (hct : pyLower r.contentType = pystr "text/html") :
    download_pdf_core web url = none := by
  have hin : pyIn appPdf (pystr "text/html") = false := by decide
  unfold download_pdf_core
  by_cases h0 : url = [] ∨ strip url = []
  · rw [if_pos h0]
  · rw [if_neg h0]
    cases hh : web.head url with
    | none => simp [hh, hget, hct, hnotpdf, hin]
    | some hr => simp [hh, hget, hct, hnotpdf, hin]

/-- C5 amended (proved).  For every URL in the input list that does not
end in ".pdf" (case-insensitively) and whose GET response carries
`Content-Type: text/html`, `save_pdfs_from_url_list` reports "FAIL" and
leaves no file on disk for it (any file at its save path is removed);
URLs whose path ends in ".pdf" are exempt, as the counterexample forces —
there the body is saved and the status is "OK". -/
theorem save_pdfs_nonpdf_html_fails (web : Web) (sha1hex : PyStr → PyStr)
    (url outdir : PyStr) (fs : FS) (overwrite : Bool) (r : HttpResponse)
    (hurl : url ≠ [])
    (hnotpdf : endsPdfCI url = false)
    (hget : web.get url = some r)
    (hct : pyLower r.contentType = pystr "text/html")
    (hfresh : fs (save_path_of sha1hex outdir url) = none ∨ overwrite = true) :
    ((save_pdfs_from_url_list web sha1hex [some url] outdir overwrite fs).1.map
        UrlResult.status = ["FAIL"]) ∧
    (save_pdfs_from_url_list web sha1hex [some url] outdir overwrite fs).2.1
        (save_path_of sha1hex outdir url) = none := by
  have hcore := download_pdf_core_html_none web url r hnotpdf hget hct
  have hdl : download_pdf web url (save_path_of sha1hex outdir url) fs = (false, fs) := by
    unfold download_pdf
    rw [hcore]
  rcases h : fs (save_path_of sha1hex outdir url) with _ | c
  · constructor
    · simp [save_pdfs_from_url_list, process_url, hurl, h, hdl, fsRemove]
    · simp [save_pdfs_from_url_list, process_url, hurl, h, hdl, fsRemove]
  · rcases hfresh with h0 | hov
    · rw [h] at h0; cases h0
    · subst hov
      constructor
      · simp [save_pdfs_from_url_list, process_url, hurl, h, hdl, fsRemove]
      · simp [save_pdfs_from_url_list, process_url, hurl, h, hdl, fsRemove]

/-- Witness for the amended C5 at a concrete input: the URL
"http://x/page" served 200/text-html yields status "FAIL" and no file at
its save path. -/
theorem save_pdfs_nonpdf_html_fails_witness :
    ((save_pdfs_from_url_list htmlWeb (fun _ => pystr "0a1b2c3d4e5f6789") [some (pystr "http://x/page")]
        (pystr "downloaded_pdfs") false (fun _ => none)).1.map UrlResult.status = ["FAIL"]) ∧
    (save_pdfs_from_url_list htmlWeb (fun _ => pystr "0a1b2c3d4e5f6789") [some (pystr "http://x/page")]
        (pystr "downloaded_pdfs") false (fun _ => none)).2.1
        (save_path_of (fun _ => pystr "0a1b2c3d4e5f6789") (pystr "downloaded_pdfs") (pystr "http://x/page")) = none :=
  save_pdfs_nonpdf_html_fails htmlWeb (fun _ => pystr "0a1b2c3d4e5f6789")
    (pystr "http://x/page") (pystr "downloaded_pdfs") (fun _ => none) false
    ⟨200, pystr "text/html", pystr "<html>junk</html>"⟩
    (by decide) (by decide) rfl (by decide) (Or.inl rfl)

/- ------------------------------------------------------------------
   C8: overwrite=False never touches an existing file.
   ------------------------------------------------------------------ -/

lemma process_url_none_eq (web : Web) (sha1hex : PyStr → PyStr)
    (outdir : PyStr) (ow : Bool) (fs : FS) (att : List PyStr) :
    process_url web sha1hex outdir ow none fs att
      = (⟨none, none, "SKIP", pystr "empty URL or None"⟩, fs, att) := rfl

lemma process_url_exists_eq (web : Web) (sha1hex : PyStr → PyStr)
    (outdir u : PyStr) (fs : FS) (att : List PyStr) (c : PyStr)
    (hu : u ≠ []) (hex : fs (save_path_of sha1hex outdir u) = some c) :
    process_url web sha1hex outdir false (some u) fs att
      = (⟨some (safe_name_of sha1hex u), some u, "EXISTS",
          save_path_of sha1hex outdir u⟩, fs, att) := by
  simp [process_url, hu, hex]

lemma process_url_fresh_ok_eq (web : Web) (sha1hex : PyStr → PyStr)
    (outdir u : PyStr) (ow : Bool) (fs : FS) (att : List PyStr) (body : PyStr)
    (hu : u ≠ []) (hfresh : fs (save_path_of sha1hex outdir u) = none)
    (hdl : download_pdf_core web u = some body) :
    process_url web sha1hex outdir ow (some u) fs att
      = (⟨some (safe_name_of sha1hex u), some u, "OK",
          save_path_of sha1hex outdir u⟩,
         fsWrite fs (save_path_of sha1hex outdir u) body, att ++ [u]) := by
  simp [process_url, download_pdf, hu, hfresh, hdl]

lemma process_url_fresh_fail_eq (web : Web) (sha1hex : PyStr → PyStr)
    (outdir u : PyStr) (ow : Bool) (fs : FS) (att : List PyStr)
    (hu : u ≠ []) (hfresh : fs (save_path_of sha1hex outdir u) = none)
    (hdl : download_pdf_core web u = none) :
    process_url web sha1hex outdir ow (some u) fs att
      = (⟨some (safe_name_of sha1hex u), some u, "FAIL",
          pystr "could not download PDF or not a PDF"⟩,
         fsRemove fs (save_path_of sha1hex outdir u), att ++ [u]) := by
  simp [process_url, download_pdf, hu, hfresh, hdl]

/-- Induction core for C8: with `overwrite=False`, any file recorded in a
reference filesystem `fs0` below the current one survives the whole run
untouched, every processed URL whose save path is occupied in `fs0`
reports "EXISTS", and no such URL is ever passed to `download_pdf`. -/
lemma save_pdfs_no_overwrite_aux (web : Web) (sha1hex : PyStr → PyStr)
    (outdir : PyStr) (fs0 : FS) :
    ∀ (urls : List (Option PyStr)) (fs : FS),
      (∀ n c, fs0 n = some c → fs n = some c) →
      (∀ n c, fs0 n = some c →
        (save_pdfs_from_url_list web sha1hex urls outdir false fs).2.1 n = some c) ∧
      (∀ r ∈ (save_pdfs_from_url_list web sha1hex urls outdir false fs).1,
        ∀ u, r.url = some u → u ≠ [] →
          fs0 (save_path_of sha1hex outdir u) ≠ none → r.status = "EXISTS") ∧
      (∀ v, v ∈ (save_pdfs_from_url_list web sha1hex urls outdir false fs).2.2 →
        some v ∈ urls) ∧
      (∀ u, u ≠ [] → fs0 (save_path_of sha1hex outdir u) ≠ none →
        u ∉ (save_pdfs_from_url_list web sha1hex urls outdir false fs).2.2) := by
  intro urls
  induction urls with
  | nil =>
    intro fs hsub
    refine ⟨fun n c h => hsub n c h, by simp [save_pdfs_from_url_list], ?_, ?_⟩
    · simp [save_pdfs_from_url_list]
    · simp [save_pdfs_from_url_list]
  | cons url? rest ih =>
    intro fs hsub
    cases url? with
    | none =>
      obtain ⟨ih1, ih2, ih3, ih4⟩ := ih fs hsub
      refine ⟨?_, ?_, ?_, ?_⟩
      · intro n c h
        simpa [save_pdfs_from_url_list, process_url_none_eq] using ih1 n c h
      · intro r hr u hru hu hocc
        simp only [save_pdfs_from_url_list, process_url_none_eq] at hr
        rcases List.mem_cons.mp hr with h | h
        · subst h; cases hru
        · exact ih2 r h u hru hu hocc
      · intro v hv
        simp only [save_pdfs_from_url_list, process_url_none_eq] at hv
        simp only [List.nil_append] at hv
        exact List.mem_cons_of_mem _ (ih3 v hv)
      · intro u hu hocc hmem
        simp only [save_pdfs_from_url_list, process_url_none_eq] at hmem
        simp only [List.nil_append] at hmem
        exact ih4 u hu hocc hmem
    | some u =>
      by_cases hu : u = []
      · subst hu
        obtain ⟨ih1, ih2, ih3, ih4⟩ := ih fs hsub
        refine ⟨?_, ?_, ?_, ?_⟩
        · intro n c h
          simpa [save_pdfs_from_url_list, process_url] using ih1 n c h
        · intro r hr u' hru hu' hocc
          simp only [save_pdfs_from_url_list, process_url] at hr
          rcases List.mem_cons.mp hr with h | h
          · subst h
            cases hru
            exact absurd rfl hu'
          · exact ih2 r h u' hru hu' hocc
        · intro v hv
          simp only [save_pdfs_from_url_list, process_url] at hv
          simp only [List.nil_append] at hv
          exact List.mem_cons_of_mem _ (ih3 v hv)
        · intro u' hu' hocc hmem
          simp only [save_pdfs_from_url_list, process_url] at hmem
          simp only [List.nil_append] at hmem
          exact ih4 u' hu' hocc hmem
      · rcases hex : fs (save_path_of sha1hex outdir u) with _ | c0
        · -- fresh path: the file is downloaded (and possibly removed);
          -- fs0 cannot own this path
          have h0 : fs0 (save_path_of sha1hex outdir u) = none := by
            rcases h00 : fs0 (save_path_of sha1hex outdir u) with _ | c1
            · rfl
            · have := hsub _ _ h00
              rw [hex] at this
              cases this
          have hstep :
              ∀ fs1 : FS,
                (∀ n c, fs0 n = some c → fs1 n = some c) →
                (∀ n c, fs0 n = some c →
                  (save_pdfs_from_url_list web sha1hex rest outdir false fs1).2.1 n = some c) ∧
                (∀ r ∈ (save_pdfs_from_url_list web sha1hex rest outdir false fs1).1,
                  ∀ u', r.url = some u' → u' ≠ [] →
                    fs0 (save_path_of sha1hex outdir u') ≠ none → r.status = "EXISTS") ∧
                (∀ v, v ∈ (save_pdfs_from_url_list web sha1hex rest outdir false fs1).2.2 →
                  some v ∈ rest) ∧
                (∀ u', u' ≠ [] → fs0 (save_path_of sha1hex outdir u') ≠ none →
                  u' ∉ (save_pdfs_from_url_list web sha1hex rest outdir false fs1).2.2) :=
            fun fs1 hsub1 => ih fs1 hsub1
          rcases hdl : download_pdf_core web u with _ | body
          · -- FAIL: the path is removed
            have hsub1 : ∀ n c, fs0 n = some c →
                fsRemove fs (save_path_of sha1hex outdir u) n = some c := by
              intro n c h
              have hne : n ≠ save_path_of sha1hex outdir u := by
                intro he; rw [he, h0] at h; cases h
              simpa [fsRemove, hne] using hsub n c h
            obtain ⟨ih1, ih2, ih3, ih4⟩ := hstep _ hsub1
            refine ⟨?_, ?_, ?_, ?_⟩
            · intro n c h
              simpa [save_pdfs_from_url_list,
                process_url_fresh_fail_eq web sha1hex outdir u false fs [] hu hex hdl]
                using ih1 n c h
            · intro r hr u' hru hu' hocc
              simp only [save_pdfs_from_url_list,
                process_url_fresh_fail_eq web sha1hex outdir u false fs [] hu hex hdl] at hr
              rcases List.mem_cons.mp hr with h | h
              · subst h
                cases hru
                exact absurd hocc (by rw [h0]; intro h; exact h rfl)
              · exact ih2 r h u' hru hu' hocc
            · intro v hv
              simp only [save_pdfs_from_url_list,
                process_url_fresh_fail_eq web sha1hex outdir u false fs [] hu hex hdl] at hv
              simp only [List.nil_append, List.singleton_append] at hv
              rcases List.mem_cons.mp hv with h | h
              · subst h; exact List.mem_cons_self _ _
              · exact List.mem_cons_of_mem _ (ih3 v h)
            · intro u' hu' hocc hmem
              simp only [save_pdfs_from_url_list,
                process_url_fresh_fail_eq web sha1hex outdir u false fs [] hu hex hdl] at hmem
              simp only [List.nil_append, List.singleton_append] at hmem
              rcases List.mem_cons.mp hmem with h | h
              · subst h
                exact absurd hocc (by rw [h0]; intro hcon; exact hcon rfl)
              · exact ih4 u' hu' hocc h
          · -- OK: the body is written at the fresh path
            have hsub1 : ∀ n c, fs0 n = some c →
                fsWrite fs (save_path_of sha1hex outdir u) body n = some c := by
              intro n c h
              have hne : n ≠ save_path_of sha1hex outdir u := by
                intro he; rw [he, h0] at h; cases h
              simpa [fsWrite, hne] using hsub n c h
            obtain ⟨ih1, ih2, ih3, ih4⟩ := hstep _ hsub1
            refine ⟨?_, ?_, ?_, ?_⟩
            · intro n c h
              simpa [save_pdfs_from_url_list,
                process_url_fresh_ok_eq web sha1hex outdir u false fs [] body hu hex hdl]
                using ih1 n c h
            · intro r hr u' hru hu' hocc
              simp only [save_pdfs_from_url_list,
                process_url_fresh_ok_eq web sha1hex outdir u false fs [] body hu hex hdl] at hr
              rcases List.mem_cons.mp hr with h | h
              · subst h
                cases hru
                exact absurd hocc (by rw [h0]; intro h; exact h rfl)
              · exact ih2 r h u' hru hu' hocc
            · intro v hv
              simp only [save_pdfs_from_url_list,
                process_url_fresh_ok_eq web sha1hex outdir u false fs [] body hu hex hdl] at hv
              simp only [List.nil_append, List.singleton_append] at hv
              rcases List.mem_cons.mp hv with h | h
              · subst h; exact List.mem_cons_self _ _
              · exact List.mem_cons_of_mem _ (ih3 v h)
            · intro u' hu' hocc hmem
              simp only [save_pdfs_from_url_list,
                process_url_fresh_ok_eq web sha1hex outdir u false fs [] body hu hex hdl] at hmem
              simp only [List.nil_append, List.singleton_append] at hmem
              rcases List.mem_cons.mp hmem with h | h
              · subst h
                exact absurd hocc (by rw [h0]; intro hcon; exact hcon rfl)
              · exact ih4 u' hu' hocc h
        · -- the save path already exists: EXISTS, no state change
          obtain ⟨ih1, ih2, ih3, ih4⟩ := ih fs hsub
          refine ⟨?_, ?_, ?_, ?_⟩
          · intro n c h
            simpa [save_pdfs_from_url_list,
              process_url_exists_eq web sha1hex outdir u fs [] c0 hu hex]
              using ih1 n c h
          · intro r hr u' hru hu' hocc
            simp only [save_pdfs_from_url_list,
              process_url_exists_eq web sha1hex outdir u fs [] c0 hu hex] at hr
            rcases List.mem_cons.mp hr with h | h
            · subst h; rfl
            · exact ih2 r h u' hru hu' hocc
          · intro v hv
            simp only [save_pdfs_from_url_list,
              process_url_exists_eq web sha1hex outdir u fs [] c0 hu hex] at hv
            simp only [List.nil_append] at hv
            exact List.mem_cons_of_mem _ (ih3 v hv)
          · intro u' hu' hocc hmem
            simp only [save_pdfs_from_url_list,
              process_url_exists_eq web sha1hex outdir u fs [] c0 hu hex] at hmem
            simp only [List.nil_append] at hmem
            exact ih4 u' hu' hocc hmem

/-- C8 (confirmed).  With `overwrite=False`, a run of
`save_pdfs_from_url_list` never overwrites or deletes a file that
existed when it started: every initially present file keeps its exact
contents, every list entry whose derived save path is initially occupied
reports status "EXISTS", and no such entry is ever handed to
`download_pdf` (the ghost download trace never contains it). -/
theorem save_pdfs_never_overwrites_existing (web : Web)
    (sha1hex : PyStr → PyStr) (urls : List (Option PyStr))
    (outdir : PyStr) (fs : FS) :
    (∀ n c, fs n = some c →
      (save_pdfs_from_url_list web sha1hex urls outdir false fs).2.1 n = some c) ∧
    (∀ r ∈ (save_pdfs_from_url_list web sha1hex urls outdir false fs).1,
      ∀ u, r.url = some u → u ≠ [] →
        fs (save_path_of sha1hex outdir u) ≠ none → r.status = "EXISTS") ∧
    (∀ u, u ≠ [] → fs (save_path_of sha1hex outdir u) ≠ none →
      u ∉ (save_pdfs_from_url_list web sha1hex urls outdir false fs).2.2) := by
  obtain ⟨h1, h2, _, h4⟩ :=
    save_pdfs_no_overwrite_aux web sha1hex outdir fs urls fs
      (fun _ _ h => h)
  exact ⟨h1, h2, h4⟩

/-- A one-file filesystem used to witness C8. -/
def fsOld : FS := fun n =>
  if n = save_path_of (fun _ => pystr "0a1b2c3d4e5f6789") (pystr "d") (pystr "http://x/a.pdf")
  then some (pystr "OLD") else none

/-- Witness for C8 at a concrete input: a pre-existing "d/a.pdf" with
contents "OLD" still holds "OLD" after a run (over a server that would
happily serve something else for that URL). -/
theorem save_pdfs_never_overwrites_existing_witness :
    (save_pdfs_from_url_list htmlWeb (fun _ => pystr "0a1b2c3d4e5f6789")
        [some (pystr "http://x/a.pdf")] (pystr "d") false fsOld).2.1
      (save_path_of (fun _ => pystr "0a1b2c3d4e5f6789") (pystr "d") (pystr "http://x/a.pdf"))
      = some (pystr "OLD") :=
  (save_pdfs_never_overwrites_existing htmlWeb (fun _ => pystr "0a1b2c3d4e5f6789")
      [some (pystr "http://x/a.pdf")] (pystr "d") fsOld).1
    (save_path_of (fun _ => pystr "0a1b2c3d4e5f6789") (pystr "d") (pystr "http://x/a.pdf"))
    (pystr "OLD") (by simp [fsOld])

/- ------------------------------------------------------------------
   C9: PMC filename derivation and SKIP on None.
   ------------------------------------------------------------------ -/

/-- C9 (confirmed).  For every hash oracle, the europepmc render URL with
`accid=PMC8954705` maps to exactly "PMC8954705.pdf"; a `None` or empty
URL maps to `None`; and for every network, filesystem and overwrite
flag, a `None` list entry yields the single result with status "SKIP",
message "empty URL or None", an unchanged filesystem, and no download
attempt. -/
theorem make_safe_filename_pmc_and_skip (sha1hex : PyStr → PyStr)
    (web : Web) (outdir : PyStr) (ow : Bool) (fs : FS) :
    make_safe_filename_from_url sha1hex
        (some (pystr "http://europepmc.org/backend/ptpmcrender.fcgi?accid=PMC8954705&blobtype=pdf"))
      = some (pystr "PMC8954705.pdf") ∧
    make_safe_filename_from_url sha1hex none = none ∧
    make_safe_filename_from_url sha1hex (some []) = none ∧
    save_pdfs_from_url_list web sha1hex [none] outdir ow fs
      = ([⟨none, none, "SKIP", pystr "empty URL or None"⟩], fs, []) := by
  refine ⟨rfl, rfl, rfl, rfl⟩

/- ------------------------------------------------------------------
   C10: shape of every derived filename.
   ------------------------------------------------------------------ -/

/-- C10 counterexample.  The URL "http://x/f?id=A.PDF" derives the
filename "A.PDF": a non-empty name of allowed characters, but one that
does not end with the literal string ".pdf" — the code only guarantees
the suffix up to letter case, since `c.lower().endswith(".pdf")`
suppresses the `+ ".pdf"` step while keeping the original casing. -/
theorem make_safe_filename_uppercase_suffix :
    make_safe_filename_from_url (fun _ => []) (some (pystr "http://x/f?id=A.PDF"))
      = some (pystr "A.PDF") ∧
    (pystr ".pdf").isSuffixOf (pystr "A.PDF") = false := by
  refine ⟨rfl, by decide⟩

/-- All elements of a sublist satisfy any predicate all elements of the
larger list satisfy. -/
lemma all_of_sublist (p : Char → Bool) {l m : PyStr}
    (h : List.Sublist l m) (hm : m.all p = true) : l.all p = true := by
  rw [List.all_eq_true] at *
  exact fun x hx => hm x (h.subset hx)

/-- What `_clean_name` guarantees about any name it returns: non-empty
and made of allowed characters only. -/
lemma clean_name_spec {s : PyStr} {m : Nat} {t : PyStr}
    (h : clean_name s m = some t) :
    t ≠ [] ∧ t.all allowedChar = true := by
  unfold clean_name at h
  dsimp only at h
  have hall : (strip (s.filter allowedChar)).all allowedChar = true := by
    refine all_of_sublist _ (strip_sublist _) ?_
    rw [List.all_eq_true]
    exact fun x hx => (List.mem_filter.mp hx).2
  by_cases hlen : m < (strip (s.filter allowedChar)).length
  · rw [if_pos hlen] at h
    by_cases he : (strip (s.filter allowedChar)).take m = []
    · rw [if_pos he] at h; cases h
    · rw [if_neg he] at h
      injection h with h
      subst h
      exact ⟨he, all_of_sublist _ (List.take_sublist _ _) hall⟩
  · rw [if_neg hlen] at h
    by_cases he : strip (s.filter allowedChar) = []
    · rw [if_pos he] at h; cases h
    · rw [if_neg he] at h
      injection h with h
      subst h
      exact ⟨he, hall⟩

/-- Appending ".pdf" always produces a name that ends in ".pdf" after
lowering. -/
lemma endsPdfCI_append_pdf (c : PyStr) : endsPdfCI (c ++ pystr ".pdf") = true := by
  unfold endsPdfCI pyLower
  rw [List.map_append]
  have h4 : List.map Char.toLower (pystr ".pdf") = pystr ".pdf" := by decide
  rw [h4]
  simp only [List.isSuffixOf_iff_suffix]
  exact List.suffix_append _ _

lemma all_append_pdf {c : PyStr} (hc : c.all allowedChar = true) :
    (c ++ pystr ".pdf").all allowedChar = true := by
  have hp : (pystr ".pdf").all allowedChar = true := by decide
  rw [List.all_eq_true] at *
  intro x hx
  rcases List.mem_append.mp hx with h | h
  · exact hc x h
  · exact hp x h

/-- A name with ".pdf" appended is never empty. -/
lemma append_pdf_ne_nil (c : PyStr) : c ++ pystr ".pdf" ≠ [] := by
  intro hx
  exact absurd (List.append_eq_nil.mp hx).2 (by decide)

/-- What the query-candidate loop guarantees about any name it returns. -/
lemma candidate_name_spec {m : Nat} :
    ∀ {cands : List PyStr} {c : PyStr}, candidate_name m cands = some c →
      c ≠ [] ∧ endsPdfCI c = true ∧ c.all allowedChar = true := by
  intro cands
  induction cands with
  | nil => intro c h; cases h
  | cons cand rest ih =>
    intro c h
    unfold candidate_name at h
    dsimp only at h
    by_cases hc : cand = []
    · rw [if_pos hc] at h
      exact ih h
    · rw [if_neg hc] at h
      rcases hcl : clean_name ((pyUnquote cand).filter wordOrSafe) (m - 4) with _ | c0
      · rw [hcl] at h
        exact ih h
      · rw [hcl] at h
        obtain ⟨hne, hall⟩ := clean_name_spec hcl
        injection h with h
        by_cases hp : endsPdfCI c0 = true
        · rw [if_pos hp] at h
          subst h
          exact ⟨hne, hp, hall⟩
        · rw [if_neg hp] at h
          subst h
          exact ⟨append_pdf_ne_nil c0, endsPdfCI_append_pdf c0, all_append_pdf hall⟩

/-- What the path-basename branch guarantees about any name it returns. -/
lemma basename_name_spec {m : Nat} {p r : PyStr}
    (h : basename_name m p = some r) :
    r ≠ [] ∧ endsPdfCI r = true ∧ r.all allowedChar = true := by
  unfold basename_name at h
  dsimp only at h
  by_cases hb : basename p ≠ []
  · rw [if_pos hb] at h
    rcases hcl : clean_name ((splitFirst '#' (splitFirst '?' (basename p)).1).1) m with _ | bc
    · rw [hcl] at h
      dsimp only at h
      cases h
    · rw [hcl] at h
      dsimp only at h
      obtain ⟨hne, hall⟩ := clean_name_spec hcl
      by_cases h2 : endsPdfCI ((splitFirst '#' (splitFirst '?' (basename p)).1).1) = true
      · rw [if_pos h2] at h
        injection h with h
        by_cases hp : endsPdfCI bc = true
        · rw [if_pos hp] at h
          subst h
          exact ⟨hne, hp, hall⟩
        · rw [if_neg hp] at h
          subst h
          exact ⟨append_pdf_ne_nil bc, endsPdfCI_append_pdf bc, all_append_pdf hall⟩
      · rw [if_neg h2] at h
        injection h with h
        subst h
        exact ⟨append_pdf_ne_nil bc, endsPdfCI_append_pdf bc, all_append_pdf hall⟩
  · rw [if_neg hb] at h
    cases h

/-- A string whose first character and whose last character are not
whitespace is unchanged by `strip`. -/
lemma strip_eq_self_of_ends (x : PyStr)
    (h1 : ∀ c, x.head? = some c → c.isWhitespace = false)
    (h2 : ∀ c, x.reverse.head? = some c → c.isWhitespace = false) :
    strip x = x := by
  unfold strip
  have hd : x.dropWhile Char.isWhitespace = x := by
    cases x with
    | nil => rfl
    | cons a z =>
      have := h1 a rfl
      simp [List.dropWhile_cons, this]
  rw [hd]
  have hr : x.reverse.dropWhile Char.isWhitespace = x.reverse := by
    cases hx : x.reverse with
    | nil => rfl
    | cons a z =>
      have := h2 a (by rw [hx]; rfl)
      simp [List.dropWhile_cons, this]
  rw [hr, List.reverse_reverse]

/-- The hash fallback cleans to `filter(allowed, "file_" + h)` with its
".pdf" suffix intact (the fallback is short enough to escape the
truncation at the default maxlen of 200). -/
lemma hash_clean_eq (y : PyStr) (hy : y.length ≤ 12) :
    clean_name (pystr "file_" ++ y ++ pystr ".pdf") 200
      = some ((pystr "file_" ++ y.filter allowedChar) ++ pystr ".pdf") := by
  have hfile : List.filter allowedChar (pystr "file_") = pystr "file_" := by decide
  have hpdf : List.filter allowedChar (pystr ".pdf") = pystr ".pdf" := by decide
  have hfa : (pystr "file_" ++ y ++ pystr ".pdf").filter allowedChar
      = (pystr "file_" ++ y.filter allowedChar) ++ pystr ".pdf" := by
    rw [List.filter_append, List.filter_append, hfile, hpdf]
  have hstrip : strip ((pystr "file_" ++ y.filter allowedChar) ++ pystr ".pdf")
      = (pystr "file_" ++ y.filter allowedChar) ++ pystr ".pdf" := by
    have hshape : (pystr "file_" ++ y.filter allowedChar) ++ pystr ".pdf"
        = 'f' :: ((pystr "ile_" ++ y.filter allowedChar) ++ pystr ".pdf") := rfl
    refine strip_eq_self_of_ends _ ?_ ?_
    · intro c hc
      rw [hshape, List.head?_cons] at hc
      injection hc with hc
      rw [← hc]
      decide
    · intro c hc
      rw [List.reverse_append] at hc
      have hx : (pystr ".pdf").reverse ++ ((pystr "file_" ++ y.filter allowedChar)).reverse
          = 'f' :: (pystr "dp." ++ (pystr "file_" ++ y.filter allowedChar).reverse) := rfl
      rw [hx, List.head?_cons] at hc
      injection hc with hc
      rw [← hc]
      decide
  have hlen : ((pystr "file_" ++ y.filter allowedChar) ++ pystr ".pdf").length ≤ 200 := by
    have h1 : (y.filter allowedChar).length ≤ y.length := List.length_filter_le _ _
    have h5 : (pystr "file_").length = 5 := by decide
    have h4 : (pystr ".pdf").length = 4 := by decide
    rw [List.length_append, List.length_append, h5, h4]
    omega
  unfold clean_name
  dsimp only
  rw [hfa, hstrip]
  have hcond : ¬ 200 < ((pystr "file_" ++ y.filter allowedChar) ++ pystr ".pdf").length := by
    omega
  rw [if_neg hcond]
  rw [if_neg (append_pdf_ne_nil _)]

/-- What the hash fallback guarantees about any name it returns. -/
lemma hash_name_spec {sha1hex : PyStr → PyStr} {u t : PyStr}
    (h : hash_name sha1hex u 200 = some t) :
    t ≠ [] ∧ endsPdfCI t = true ∧ t.all allowedChar = true := by
  unfold hash_name at h
  have hy : ((sha1hex u).take 12).length ≤ 12 := by
    simp
  rw [hash_clean_eq _ hy] at h
  injection h with h
  have hcl : clean_name (pystr "file_" ++ (sha1hex u).take 12 ++ pystr ".pdf") 200
      = some ((pystr "file_" ++ ((sha1hex u).take 12).filter allowedChar) ++ pystr ".pdf") :=
    hash_clean_eq _ hy
  obtain ⟨hne, hall⟩ := clean_name_spec hcl
  subst h
  exact ⟨hne, endsPdfCI_append_pdf _, hall⟩

/-- C10 amended (proved).  For every hash oracle and every input string,
whenever `make_safe_filename_from_url` (at its default maxlen) returns a
filename rather than `None`, that filename is a non-empty string that
ends with ".pdf" up to letter case (its lowercasing ends with ".pdf")
and contains only alphanumeric characters, spaces, and the characters
. - _ ( ) [ ] — regardless of which naming strategy produced it.  The
literal-case version of the suffix condition fails, as the
counterexample forces. -/
theorem make_safe_filename_shape (sha1hex : PyStr → PyStr)
    (url : Option PyStr) (name : PyStr)
    (h : make_safe_filename_from_url sha1hex url = some name) :
    name ≠ [] ∧ endsPdfCI name = true ∧ name.all allowedChar = true := by
  cases url with
  | none => cases h
  | some u =>
    unfold make_safe_filename_from_url at h
    dsimp only at h
    by_cases hu : u = []
    · rw [if_pos hu] at h; cases h
    · rw [if_neg hu] at h
      rcases hc : candidate_name 200 (url_candidates u) with _ | c
      · rw [hc] at h
        rcases hb : basename_name 200 (pyUnquote (urlparse u).path) with _ | r
        · rw [hb] at h
          exact hash_name_spec h
        · rw [hb] at h
          injection h with h
          subst h
          exact basename_name_spec hb
      · rw [hc] at h
        injection h with h
        subst h
        exact candidate_name_spec hc

/-- Witness for the amended C10 at a concrete input: the PMC URL's
derived name "PMC8954705.pdf" is non-empty, ends in ".pdf" after
lowering, and uses only allowed characters. -/
theorem make_safe_filename_shape_witness :
    pystr "PMC8954705.pdf" ≠ [] ∧
    endsPdfCI (pystr "PMC8954705.pdf") = true ∧
    (pystr "PMC8954705.pdf").all allowedChar = true :=
  make_safe_filename_shape (fun _ => [])
    (some (pystr "http://europepmc.org/backend/ptpmcrender.fcgi?accid=PMC8954705&blobtype=pdf"))
    (pystr "PMC8954705.pdf") rfl

end GenHypo
